import Mathlib

/-!
Shallow embedding of the ARGO NetCDF-to-SQL converter (`convertor.py`).

The converter walks the profiles of each NetCDF file, checks a duplicate
guard keyed on (platform_number, cycle_number), converts the Julian day to a
timestamp, inserts a profile-metadata row (each insert its own committed
transaction), QC-filters the per-depth arrays, drops depth samples with
missing pressure, and bulk-inserts the surviving measurement rows.

Numeric sensor values are modelled as `Option ℚ` (`none` = NaN / missing);
QC flag bytes as `Option Char` (`none` = missing flag).  Timestamps are
microseconds since 1950-01-01T00:00:00, matching Python `datetime`
resolution.  Each exception / transaction-failure point of the source is
modelled by an explicit boolean attribute of the input data:

* `identFails`  — `int(ds['PLATFORM_NUMBER']...)` / `int(ds['CYCLE_NUMBER']...)`
  raises (before the duplicate guard runs); caught only by the file-level
  `try`, so the whole file aborts.
* `metaFails`   — reading `JULD`/`LATITUDE`/`LONGITUDE` or
  `timedelta(days=float(julian_day))` raises (e.g. non-finite Julian day);
  also caught only at the file level.
* `extractFails` — an exception inside `_extract_measurements`, caught
  there, producing `[]`.
* `insertFails` — the profile INSERT fails; `_insert_profile_metadata`
  rolls back and returns `None`.
* `bulkFails`   — the measurement bulk INSERT fails;
  `_bulk_insert_measurements` rolls back the whole batch.
-/

namespace Calypso

/-- One depth sample of a profile: the raw sensor values of the three
variables and their parallel QC flag bytes (`none` = missing). -/
structure Level where
  pres : Option ℚ
  temp : Option ℚ
  psal : Option ℚ
  presQC : Option Char
  tempQC : Option Char
  psalQC : Option Char
deriving DecidableEq, Repr

/-- One profile of a NetCDF file, together with the failure flags that model
the exception and transaction-failure points of the source. -/
structure RawProfile where
  platform_number : ℤ
  cycle_number : ℤ
  identFails : Bool
  metaFails : Bool
  juld : ℚ
  latitude : ℚ
  longitude : ℚ
  levels : List Level
  extractFails : Bool
  insertFails : Bool
  bulkFails : Bool
deriving DecidableEq, Repr

/-- One NetCDF file: `openFails` models an exception while opening /
reading the dataset before any profile is processed. -/
structure RawFile where
  openFails : Bool
  profiles : List RawProfile
deriving DecidableEq, Repr

/-- A persisted row of the `argo_profiles` table. -/
structure ProfileRow where
  profile_id : ℕ
  platform_number : ℤ
  cycle_number : ℤ
  profile_timestamp : ℤ
  latitude : ℚ
  longitude : ℚ
deriving DecidableEq, Repr

/-- A persisted row of the `ocean_measurements` table, in the column order
of the bulk-insert tuples of the source. -/
structure MeasRow where
  profile_id : ℕ
  pressure_dbar : Option ℚ
  temperature_celsius : Option ℚ
  salinity_psu : Option ℚ
deriving DecidableEq, Repr

/-- The relational store: the two tables plus the generated-key counter
behind `RETURNING profile_id`. -/
structure DB where
  profiles : List ProfileRow
  measurements : List MeasRow
  nextId : ℕ
deriving DecidableEq, Repr

/-- A fresh store; PostgreSQL `SERIAL` keys start at 1. -/
def DB.empty : DB := ⟨[], [], 1⟩

/-- Microseconds in one day. -/
def microsPerDay : ℤ := 86400000000

/-- Round to the nearest integer, ties to even — the rounding Python's
`timedelta` applies when converting a float day count to microseconds. -/
def roundHalfEven (q : ℚ) : ℤ :=
  let f := ⌊q⌋
  let r := q - f
  if r < 1 / 2 then f
  else if 1 / 2 < r then f + 1
  else if f % 2 = 0 then f else f + 1

/-- `ref_date + timedelta(days=d)` as microseconds since
1950-01-01T00:00:00 (`ref_date = datetime(1950, 1, 1)` in the source). -/
def juldToTimestamp (d : ℚ) : ℤ := roundHalfEven (d * (microsPerDay : ℚ))

/-- Proleptic-Gregorian date from a count of days since 1970-01-01
(the standard civil-from-days algorithm, as `datetime` renders dates). -/
def civilFromDays (z0 : ℤ) : ℤ × ℤ × ℤ :=
  let z := z0 + 719468
  let era := z.ediv 146097
  let doe := z.emod 146097
  let yoe := (doe - doe / 1460 + doe / 36524 - doe / 146096) / 365
  let y := yoe + era * 400
  let doy := doe - (365 * yoe + yoe / 4 - yoe / 100)
  let mp := (5 * doy + 2) / 153
  let d := doy - (153 * mp + 2) / 5 + 1
  let m := if mp < 10 then mp + 3 else mp - 9
  (if m ≤ 2 then y + 1 else y, m, d)

/-- Day count of 1950-01-01 relative to 1970-01-01. -/
def epochDaysFrom1970 : ℤ := -7305

/-- Render a timestamp (microseconds since the 1950 epoch) as
(year, month, day, hour, minute, second), as `datetime` displays it. -/
def civilOfMicros (micros : ℤ) : ℤ × ℤ × ℤ × ℤ × ℤ × ℤ :=
  let day := micros.ediv microsPerDay
  let rem := micros.emod microsPerDay
  let ymd := civilFromDays (epochDaysFrom1970 + day)
  let sec := rem / 1000000
  (ymd.1, ymd.2.1, ymd.2.2, sec / 3600, (sec / 60) % 60, sec % 60)

/-- QC flags accepted by `.isin([b'1', b'2'])`; a missing flag is never in
the accepted set. -/
def goodFlag (f : Option Char) : Bool :=
  f == some '1' || f == some '2'

/-- `var.where(var_QC.isin([b'1', b'2']))`: keep a sample's value exactly
when its flag is accepted, otherwise make it missing. -/
def qcFilter (vals : List (Option ℚ)) (flags : List (Option Char)) : List (Option ℚ) :=
  List.zipWith (fun v f => if goodFlag f then v else none) vals flags

/-- `df.dropna(subset=['pressure_dbar'])` followed by tuple construction:
one candidate row per depth sample, kept only when pressure is present. -/
def buildRows (pid : ℕ) : List (Option ℚ) → List (Option ℚ) → List (Option ℚ) → List MeasRow
  | p :: ps, t :: ts, s :: ss =>
      (if p.isSome then [⟨pid, p, t, s⟩] else []) ++ buildRows pid ps ts ss
  | _, _, _ => []

/-- `_extract_measurements`: QC-filter the three variables independently,
drop samples with missing pressure, attach the profile id; any exception
inside is caught and yields the empty list. -/
def extract_measurements (p : RawProfile) (pid : ℕ) : List MeasRow :=
  if p.extractFails then []
  else
    buildRows pid
      (qcFilter (p.levels.map Level.pres) (p.levels.map Level.presQC))
      (qcFilter (p.levels.map Level.temp) (p.levels.map Level.tempQC))
      (qcFilter (p.levels.map Level.psal) (p.levels.map Level.psalQC))

/-- `_profile_exists`: the duplicate guard, a read-only existence check on
(platform_number, cycle_number). -/
def profile_exists (db : DB) (platform cycle : ℤ) : Bool :=
  db.profiles.any fun r => r.platform_number == platform && r.cycle_number == cycle

/-- The `argo_profiles` row built for profile `p` with the next generated
key: (platform, cycle, converted timestamp, latitude, longitude). -/
def profileRowOf (db : DB) (p : RawProfile) : ProfileRow :=
  ⟨db.nextId, p.platform_number, p.cycle_number,
   juldToTimestamp p.juld, p.latitude, p.longitude⟩

/-- The store after a committed profile-metadata insert. -/
def insertedDB (db : DB) (p : RawProfile) : DB :=
  { profiles := db.profiles ++ [profileRowOf db p],
    measurements := db.measurements,
    nextId := db.nextId + 1 }

/-- `_insert_profile_metadata`: insert one row and commit, returning the
generated id; on failure roll back and return `none`. -/
def insert_profile_metadata (db : DB) (p : RawProfile) : DB × Option ℕ :=
  if p.insertFails then (db, none)
  else (insertedDB db p, some db.nextId)

/-- `_bulk_insert_measurements`: append the whole batch and commit, or roll
back leaving the store unchanged. -/
def bulk_insert_measurements (db : DB) (rows : List MeasRow) (fails : Bool) : DB :=
  if fails then db else { db with measurements := db.measurements ++ rows }

/-- Python truthiness of the returned profile id (`if not profile_id:`):
`None` and `0` are both falsy. -/
def truthy : Option ℕ → Bool
  | none => false
  | some n => n != 0

/-- The store after a fully ingested profile: metadata row committed, then
the surviving measurement rows bulk-inserted (a no-op when none survive). -/
def afterMeas (db : DB) (p : RawProfile) : DB :=
  let rows := extract_measurements p db.nextId
  if rows.isEmpty then insertedDB db p
  else bulk_insert_measurements (insertedDB db p) rows p.bulkFails

/-- One iteration of the per-profile loop of `process_file`: `none` models
an exception escaping the loop body (caught only by the file-level
handler); `some db'` is the store after this profile, whether it was
skipped as a duplicate, lost its insert, or was fully ingested. -/
def processOne (db : DB) (p : RawProfile) : Option DB :=
  if p.identFails then none
  else if profile_exists db p.platform_number p.cycle_number then some db
  else if p.metaFails then none
  else
    let res := insert_profile_metadata db p
    if truthy res.2 then
      some (let rows := extract_measurements p (res.2.getD 0)
            if rows.isEmpty then res.1
            else bulk_insert_measurements res.1 rows p.bulkFails)
    else some res.1

/-- The per-profile loop of `process_file`.  The boolean result records
whether an uncaught exception aborted the loop (propagating to the
file-level handler); the store reached so far is kept either way, since
every insert commits individually. -/
def processProfiles : DB → List RawProfile → DB × Bool
  | db, [] => (db, false)
  | db, p :: rest =>
    match processOne db p with
    | none => (db, true)
    | some db1 => processProfiles db1 rest

/-- `process_file`: open the dataset and run the profile loop; any escaping
exception is caught and logged, keeping all work committed so far. -/
def process_file (db : DB) (f : RawFile) : DB :=
  if f.openFails then db else (processProfiles db f.profiles).1

/-- The driver loop of `main`: process every discovered file in order. -/
def runPipeline (db : DB) (files : List RawFile) : DB :=
  files.foldl process_file db

/-- The measurement rows persisted for profile id `k`. -/
def measFor (db : DB) (k : ℕ) : List MeasRow :=
  db.measurements.filter fun m => m.profile_id == k

/-- Every persisted measurement row carries a present pressure value. -/
def pressureOK (db : DB) : Prop :=
  ∀ m ∈ db.measurements, m.pressure_dbar.isSome = true

/-- No two persisted profile rows share (platform_number, cycle_number). -/
def uniqueKeys (db : DB) : Prop :=
  db.profiles.Pairwise fun a b =>
    ¬(a.platform_number = b.platform_number ∧ a.cycle_number = b.cycle_number)

/-- Every persisted profile id is below the generated-key counter. -/
def idBound (db : DB) : Prop :=
  ∀ pr ∈ db.profiles, pr.profile_id < db.nextId

/-- A profile is harmless to re-process: its metadata reads succeed, and —
unless reading its identifiers raises first — either the duplicate guard
fires against `db` or its insert fails again.  Elements after an
identifier-read failure are unconstrained: the loop never reaches them. -/
def settledUpTo (db : DB) : List RawProfile → Prop
  | [] => True
  | p :: rest =>
      p.metaFails = false ∧
      (p.identFails = true ∨
        ((profile_exists db p.platform_number p.cycle_number = true ∨ p.insertFails = true) ∧
         settledUpTo db rest))

/-- Every file of the set is harmless to re-process against `db`: it fails
to open, or every profile the loop reaches is settled. -/
def allSettled (db : DB) (files : List RawFile) : Prop :=
  ∀ f ∈ files, f.openFails = true ∨ settledUpTo db f.profiles

section SampleData

/-- A depth sample with good pressure/salinity flags and a bad (`'4'`)
temperature flag. -/
def sampleLevel : Level := ⟨some 5, some 7, some 35, some '1', some '4', some '1'⟩

/-- A fully well-behaved profile with one depth sample. -/
def sampleProfile : RawProfile :=
  ⟨42, 7, false, false, 3 / 2, 10, 20, [sampleLevel], false, false, false⟩

/-- A file holding only `sampleProfile`. -/
def sampleFile : RawFile := ⟨false, [sampleProfile]⟩

/-- A profile whose metadata read raises (e.g. a non-finite Julian day). -/
def abortProfile : RawProfile := ⟨1, 1, false, true, 0, 0, 0, [], false, false, false⟩

/-- A well-behaved profile sitting after `abortProfile` in its file. -/
def tailProfile : RawProfile := ⟨2, 2, false, false, 0, 0, 0, [], false, false, false⟩

/-- A well-behaved profile with the same key as `abortProfile`. -/
def retryProfile : RawProfile := ⟨1, 1, false, false, 0, 0, 0, [], false, false, false⟩

/-- A profile with metadata failure on a key no other sample data uses. -/
def abortProfile2 : RawProfile := ⟨3, 3, false, true, 0, 0, 0, [], false, false, false⟩

/-- The file whose processing aborts at `abortProfile`. -/
def fileA : RawFile := ⟨false, [abortProfile, tailProfile]⟩

/-- A later file that successfully ingests the key of `abortProfile`. -/
def fileB : RawFile := ⟨false, [retryProfile]⟩

/-- A file that fails to open. -/
def badFile : RawFile := ⟨true, [retryProfile]⟩

end SampleData

section Helpers

lemma buildRows_pressure (pid : ℕ) :
    ∀ (ps ts ss : List (Option ℚ)) (r : MeasRow),
      r ∈ buildRows pid ps ts ss → r.pressure_dbar.isSome = true := by
  intro ps
  induction ps with
  | nil => intro ts ss r h; simp [buildRows] at h
  | cons p ptl ih =>
    intro ts ss r h
    cases ts with
    | nil => simp [buildRows] at h
    | cons t ttl =>
      cases ss with
      | nil => simp [buildRows] at h
      | cons s stl =>
        simp only [buildRows, List.mem_append] at h
        rcases h with h | h
        · by_cases hp : p.isSome
          · simp only [hp, if_true, List.mem_singleton] at h
            subst h
            simpa using hp
          · simp [hp] at h
        · exact ih ttl stl r h

lemma buildRows_pid (pid : ℕ) :
    ∀ (ps ts ss : List (Option ℚ)) (r : MeasRow),
      r ∈ buildRows pid ps ts ss → r.profile_id = pid := by
  intro ps
  induction ps with
  | nil => intro ts ss r h; simp [buildRows] at h
  | cons p ptl ih =>
    intro ts ss r h
    cases ts with
    | nil => simp [buildRows] at h
    | cons t ttl =>
      cases ss with
      | nil => simp [buildRows] at h
      | cons s stl =>
        simp only [buildRows, List.mem_append] at h
        rcases h with h | h
        · by_cases hp : p.isSome
          · simp only [hp, if_true, List.mem_singleton] at h
            subst h
            rfl
          · simp [hp] at h
        · exact ih ttl stl r h

lemma extract_pressure {p : RawProfile} {pid : ℕ} {r : MeasRow}
    (h : r ∈ extract_measurements p pid) : r.pressure_dbar.isSome = true := by
  unfold extract_measurements at h
  split at h
  · simp at h
  · exact buildRows_pressure pid _ _ _ r h

lemma extract_pid {p : RawProfile} {pid : ℕ} {r : MeasRow}
    (h : r ∈ extract_measurements p pid) : r.profile_id = pid := by
  unfold extract_measurements at h
  split at h
  · simp at h
  · exact buildRows_pid pid _ _ _ r h

lemma processOne_eq (db : DB) (p : RawProfile) :
    processOne db p =
      if p.identFails then none
      else if profile_exists db p.platform_number p.cycle_number then some db
      else if p.metaFails then none
      else if p.insertFails then some db
      else if db.nextId = 0 then some (insertedDB db p)
      else some (afterMeas db p) := by
  by_cases h1 : p.identFails
  · simp [processOne, h1]
  · by_cases h2 : profile_exists db p.platform_number p.cycle_number
    · simp [processOne, h1, h2]
    · by_cases h3 : p.metaFails
      · simp [processOne, h1, h2, h3]
      · by_cases h4 : p.insertFails
        · simp [processOne, insert_profile_metadata, truthy, h1, h2, h3, h4]
        · by_cases h5 : db.nextId = 0
          · simp [processOne, insert_profile_metadata, truthy, h1, h2, h3, h4, h5]
          · simp [processOne, insert_profile_metadata, truthy, afterMeas,
                  h1, h2, h3, h4, h5]

lemma processOne_none_cases {db : DB} {p : RawProfile}
    (h : processOne db p = none) : p.identFails = true ∨ p.metaFails = true := by
  rw [processOne_eq] at h
  by_cases h1 : p.identFails
  · exact Or.inl h1
  · by_cases h2 : profile_exists db p.platform_number p.cycle_number
    · simp [h1, h2] at h
    · by_cases h3 : p.metaFails
      · exact Or.inr h3
      · by_cases h4 : p.insertFails
        · simp [h1, h2, h3, h4] at h
        · by_cases h5 : db.nextId = 0 <;> simp [h1, h2, h3, h4, h5] at h

lemma processOne_some_shape {db : DB} {p : RawProfile} {db1 : DB}
    (h : processOne db p = some db1) :
    db1 = db ∨ db1 = insertedDB db p ∨ db1 = afterMeas db p := by
  rw [processOne_eq] at h
  split at h
  · cases h
  · split at h
    · cases h
      exact Or.inl rfl
    · split at h
      · cases h
      · split at h
        · cases h
          exact Or.inl rfl
        · split at h
          · cases h
            exact Or.inr (Or.inl rfl)
          · cases h
            exact Or.inr (Or.inr rfl)

lemma processOne_some_cases {db : DB} {p : RawProfile} {db1 : DB}
    (h : processOne db p = some db1) :
    (profile_exists db p.platform_number p.cycle_number = true ∧ db1 = db) ∨
    (profile_exists db p.platform_number p.cycle_number = false ∧
      p.insertFails = true ∧ db1 = db) ∨
    (profile_exists db p.platform_number p.cycle_number = false ∧
      p.insertFails = false ∧ db.nextId = 0 ∧ db1 = insertedDB db p) ∨
    (profile_exists db p.platform_number p.cycle_number = false ∧
      p.insertFails = false ∧ db.nextId ≠ 0 ∧ db1 = afterMeas db p) := by
  rw [processOne_eq] at h
  by_cases h1 : p.identFails
  · simp [h1] at h
  · by_cases h2 : profile_exists db p.platform_number p.cycle_number
    · simp only [h1, h2, if_true, if_false, Bool.false_eq_true, Option.some.injEq] at h
      exact Or.inl ⟨h2, h.symm⟩
    · by_cases h3 : p.metaFails
      · simp [h1, h2, h3] at h
      · by_cases h4 : p.insertFails
        · simp only [h1, h2, h3, h4, if_true, if_false, Bool.false_eq_true,
            Option.some.injEq] at h
          exact Or.inr (Or.inl ⟨by simpa using h2, h4, h.symm⟩)
        · by_cases h5 : db.nextId = 0
          · simp only [h1, h2, h3, h4, h5, if_true, if_false, Bool.false_eq_true,
              Option.some.injEq] at h
            exact Or.inr (Or.inr (Or.inl ⟨by simpa using h2, by simpa using h4, h5, h.symm⟩))
          · simp only [h1, h2, h3, h4, h5, if_true, if_false, Bool.false_eq_true,
              Option.some.injEq] at h
            exact Or.inr (Or.inr (Or.inr ⟨by simpa using h2, by simpa using h4, h5, h.symm⟩))

lemma insertedDB_profiles (db : DB) (p : RawProfile) :
    (insertedDB db p).profiles = db.profiles ++ [profileRowOf db p] := rfl

lemma insertedDB_measurements (db : DB) (p : RawProfile) :
    (insertedDB db p).measurements = db.measurements := rfl

lemma insertedDB_nextId (db : DB) (p : RawProfile) :
    (insertedDB db p).nextId = db.nextId + 1 := rfl

lemma afterMeas_profiles (db : DB) (p : RawProfile) :
    (afterMeas db p).profiles = db.profiles ++ [profileRowOf db p] := by
  by_cases h : (extract_measurements p db.nextId).isEmpty
  · simp [afterMeas, bulk_insert_measurements, h, insertedDB]
  · by_cases hb : p.bulkFails <;>
      simp [afterMeas, bulk_insert_measurements, h, hb, insertedDB]

lemma afterMeas_nextId (db : DB) (p : RawProfile) :
    (afterMeas db p).nextId = db.nextId + 1 := by
  by_cases h : (extract_measurements p db.nextId).isEmpty
  · simp [afterMeas, bulk_insert_measurements, h, insertedDB]
  · by_cases hb : p.bulkFails <;>
      simp [afterMeas, bulk_insert_measurements, h, hb, insertedDB]

lemma afterMeas_measurements (db : DB) (p : RawProfile) :
    (afterMeas db p).measurements = db.measurements ∨
    (afterMeas db p).measurements =
      db.measurements ++ extract_measurements p db.nextId := by
  by_cases h : (extract_measurements p db.nextId).isEmpty
  · exact Or.inl (by simp [afterMeas, bulk_insert_measurements, h, insertedDB])
  · by_cases hb : p.bulkFails
    · exact Or.inl (by simp [afterMeas, bulk_insert_measurements, h, hb, insertedDB])
    · exact Or.inr (by simp [afterMeas, bulk_insert_measurements, h, hb, insertedDB])

lemma profileRowOf_id (db : DB) (p : RawProfile) :
    (profileRowOf db p).profile_id = db.nextId := rfl

lemma profileRowOf_not_mem {db : DB} {p : RawProfile} (hb : idBound db) :
    profileRowOf db p ∉ db.profiles := by
  intro h
  have := hb _ h
  simp [profileRowOf_id] at this

lemma exists_insertedDB (db : DB) (p : RawProfile) :
    profile_exists (insertedDB db p) p.platform_number p.cycle_number = true := by
  simp [profile_exists, insertedDB, List.any_eq_true]
  exact Or.inr ⟨rfl, rfl⟩

lemma exists_afterMeas (db : DB) (p : RawProfile) :
    profile_exists (afterMeas db p) p.platform_number p.cycle_number = true := by
  have h := exists_insertedDB db p
  simp only [profile_exists, List.any_eq_true] at h ⊢
  rw [afterMeas_profiles]
  rw [insertedDB_profiles] at h
  exact h

lemma profiles_mono_one {db : DB} {p : RawProfile} {db1 : DB}
    (h : processOne db p = some db1) {pr : ProfileRow}
    (hm : pr ∈ db.profiles) : pr ∈ db1.profiles := by
  rcases processOne_some_shape h with h1 | h1 | h1 <;> subst h1
  · exact hm
  · rw [insertedDB_profiles]
    exact List.mem_append_left _ hm
  · rw [afterMeas_profiles]
    exact List.mem_append_left _ hm

lemma nextId_mono_one {db : DB} {p : RawProfile} {db1 : DB}
    (h : processOne db p = some db1) : db.nextId ≤ db1.nextId := by
  rcases processOne_some_shape h with h1 | h1 | h1 <;> subst h1
  · exact le_refl _
  · rw [insertedDB_nextId]
    omega
  · rw [afterMeas_nextId]
    omega

lemma measFor_one {db : DB} {p : RawProfile} {db1 : DB}
    (h : processOne db p = some db1) {k : ℕ} (hk : k < db.nextId) :
    measFor db1 k = measFor db k := by
  rcases processOne_some_shape h with h1 | h1 | h1 <;> subst h1
  · rfl
  · rfl
  · unfold measFor
    rcases afterMeas_measurements db p with h2 | h2 <;> rw [h2]
    rw [List.filter_append]
    have : (extract_measurements p db.nextId).filter (fun m => m.profile_id == k) = [] := by
      rw [List.filter_eq_nil_iff]
      intro r hr
      have := extract_pid hr
      simp [this]
      omega
    rw [this, List.append_nil]

lemma idBound_one {db : DB} {p : RawProfile} {db1 : DB}
    (h : processOne db p = some db1) (hb : idBound db) : idBound db1 := by
  rcases processOne_some_shape h with h1 | h1 | h1 <;> subst h1
  · exact hb
  · intro pr hm
    rw [insertedDB_profiles] at hm
    rw [insertedDB_nextId]
    rcases List.mem_append.mp hm with h2 | h2
    · exact Nat.lt_succ_of_lt (hb _ h2)
    · rw [List.mem_singleton] at h2
      subst h2
      rw [profileRowOf_id]
      omega
  · intro pr hm
    rw [afterMeas_profiles] at hm
    rw [afterMeas_nextId]
    rcases List.mem_append.mp hm with h2 | h2
    · exact Nat.lt_succ_of_lt (hb _ h2)
    · rw [List.mem_singleton] at h2
      subst h2
      rw [profileRowOf_id]
      omega

lemma pressureOK_one {db : DB} {p : RawProfile} {db1 : DB}
    (h : processOne db p = some db1) (hp : pressureOK db) : pressureOK db1 := by
  rcases processOne_some_shape h with h1 | h1 | h1 <;> subst h1
  · exact hp
  · exact hp
  · intro m hm
    rcases afterMeas_measurements db p with h2 | h2 <;> rw [h2] at hm
    · exact hp m hm
    · rcases List.mem_append.mp hm with h3 | h3
      · exact hp m h3
      · exact extract_pressure h3

lemma not_exists_iff {db : DB} {a b : ℤ} :
    profile_exists db a b = false ↔
      ∀ r ∈ db.profiles, ¬(r.platform_number = a ∧ r.cycle_number = b) := by
  simp only [profile_exists, List.any_eq_false]
  constructor
  · intro h r hr hc
    exact h r hr (by simp [hc.1, hc.2])
  · intro h r hr hc
    simp only [Bool.and_eq_true, beq_iff_eq] at hc
    exact h r hr ⟨hc.1, hc.2⟩

lemma uniqueKeys_insert {db : DB} {p : RawProfile}
    (hex : profile_exists db p.platform_number p.cycle_number = false)
    (hu : uniqueKeys db) :
    (db.profiles ++ [profileRowOf db p]).Pairwise
      (fun a b => ¬(a.platform_number = b.platform_number ∧ a.cycle_number = b.cycle_number)) := by
  rw [List.pairwise_append]
  refine ⟨hu, List.pairwise_singleton _ _, ?_⟩
  intro a ha b hb
  rw [List.mem_singleton] at hb
  subst hb
  intro hc
  exact not_exists_iff.mp hex a ha ⟨hc.1, hc.2⟩

lemma uniqueKeys_one {db : DB} {p : RawProfile} {db1 : DB}
    (h : processOne db p = some db1) (hu : uniqueKeys db) : uniqueKeys db1 := by
  rcases processOne_some_cases h with ⟨_, h1⟩ | ⟨_, _, h1⟩ | ⟨hex, _, _, h1⟩ | ⟨hex, _, _, h1⟩ <;>
    subst h1
  · exact hu
  · exact hu
  · unfold uniqueKeys
    rw [insertedDB_profiles]
    exact uniqueKeys_insert hex hu
  · unfold uniqueKeys
    rw [afterMeas_profiles]
    exact uniqueKeys_insert hex hu

lemma processProfiles_nil (db : DB) : processProfiles db [] = (db, false) := rfl

lemma processProfiles_cons_none {db : DB} {p : RawProfile} {rest : List RawProfile}
    (h : processOne db p = none) : processProfiles db (p :: rest) = (db, true) := by
  simp [processProfiles, h]

lemma processProfiles_cons_some {db : DB} {p : RawProfile} {db1 : DB} {rest : List RawProfile}
    (h : processOne db p = some db1) :
    processProfiles db (p :: rest) = processProfiles db1 rest := by
  simp [processProfiles, h]

lemma profiles_mono :
    ∀ (l : List RawProfile) (db : DB) (pr : ProfileRow),
      pr ∈ db.profiles → pr ∈ (processProfiles db l).1.profiles := by
  intro l
  induction l with
  | nil => intro db pr h; simpa [processProfiles_nil] using h
  | cons p rest ih =>
    intro db pr h
    cases hp : processOne db p with
    | none => rw [processProfiles_cons_none hp]; exact h
    | some db1 =>
      rw [processProfiles_cons_some hp]
      exact ih db1 pr (profiles_mono_one hp h)

lemma exists_mono {db : DB} {a b : ℤ} (l : List RawProfile)
    (h : profile_exists db a b = true) :
    profile_exists (processProfiles db l).1 a b = true := by
  simp only [profile_exists, List.any_eq_true] at h ⊢
  rcases h with ⟨r, hr, hm⟩
  exact ⟨r, profiles_mono l db r hr, hm⟩

lemma nextId_mono :
    ∀ (l : List RawProfile) (db : DB), db.nextId ≤ (processProfiles db l).1.nextId := by
  intro l
  induction l with
  | nil => intro db; simp [processProfiles_nil]
  | cons p rest ih =>
    intro db
    cases hp : processOne db p with
    | none => rw [processProfiles_cons_none hp]
    | some db1 =>
      rw [processProfiles_cons_some hp]
      exact le_trans (nextId_mono_one hp) (ih db1)

lemma measFor_preserved :
    ∀ (l : List RawProfile) (db : DB) (k : ℕ), k < db.nextId →
      measFor (processProfiles db l).1 k = measFor db k := by
  intro l
  induction l with
  | nil => intro db k _; rw [processProfiles_nil]
  | cons p rest ih =>
    intro db k hk
    cases hp : processOne db p with
    | none => rw [processProfiles_cons_none hp]
    | some db1 =>
      rw [processProfiles_cons_some hp]
      rw [ih db1 k (lt_of_lt_of_le hk (nextId_mono_one hp))]
      exact measFor_one hp hk

lemma idBound_pp :
    ∀ (l : List RawProfile) (db : DB), idBound db → idBound (processProfiles db l).1 := by
  intro l
  induction l with
  | nil => intro db h; rwa [processProfiles_nil]
  | cons p rest ih =>
    intro db h
    cases hp : processOne db p with
    | none => rwa [processProfiles_cons_none hp]
    | some db1 =>
      rw [processProfiles_cons_some hp]
      exact ih db1 (idBound_one hp h)

lemma pressureOK_pp :
    ∀ (l : List RawProfile) (db : DB), pressureOK db → pressureOK (processProfiles db l).1 := by
  intro l
  induction l with
  | nil => intro db h; rwa [processProfiles_nil]
  | cons p rest ih =>
    intro db h
    cases hp : processOne db p with
    | none => rwa [processProfiles_cons_none hp]
    | some db1 =>
      rw [processProfiles_cons_some hp]
      exact ih db1 (pressureOK_one hp h)

lemma uniqueKeys_pp :
    ∀ (l : List RawProfile) (db : DB), uniqueKeys db → uniqueKeys (processProfiles db l).1 := by
  intro l
  induction l with
  | nil => intro db h; rwa [processProfiles_nil]
  | cons p rest ih =>
    intro db h
    cases hp : processOne db p with
    | none => rwa [processProfiles_cons_none hp]
    | some db1 =>
      rw [processProfiles_cons_some hp]
      exact ih db1 (uniqueKeys_one hp h)

lemma alongside_pp :
    ∀ (l : List RawProfile) (db : DB), idBound db →
      ∀ m ∈ (processProfiles db l).1.measurements,
        m ∈ db.measurements ∨
        ∃ pr, pr ∈ (processProfiles db l).1.profiles ∧ pr ∉ db.profiles ∧
          m.profile_id = pr.profile_id := by
  intro l
  induction l with
  | nil => intro db _ m hm; rw [processProfiles_nil] at hm ⊢; exact Or.inl hm
  | cons p rest ih =>
    intro db hb m hm
    cases hp : processOne db p with
    | none =>
      rw [processProfiles_cons_none hp] at hm ⊢
      exact Or.inl hm
    | some db1 =>
      rw [processProfiles_cons_some hp] at hm ⊢
      rcases ih db1 (idBound_one hp hb) m hm with h1 | ⟨pr, hpr, hnpr, hid⟩
      · rcases processOne_some_shape hp with h2 | h2 | h2
        · subst h2; exact Or.inl h1
        · rw [h2, insertedDB_measurements] at h1
          exact Or.inl h1
        · rcases afterMeas_measurements db p with h3 | h3
          · rw [h2, h3] at h1
            exact Or.inl h1
          · rw [h2, h3] at h1
            rcases List.mem_append.mp h1 with h4 | h4
            · exact Or.inl h4
            · refine Or.inr ⟨profileRowOf db p, ?_, profileRowOf_not_mem hb, ?_⟩
              · apply profiles_mono rest db1
                rw [h2, afterMeas_profiles]
                exact List.mem_append_right _ (List.mem_singleton.mpr rfl)
              · rw [profileRowOf_id]
                exact extract_pid h4
      · refine Or.inr ⟨pr, hpr, fun hc => hnpr (profiles_mono_one hp hc), hid⟩

lemma processProfiles_append :
    ∀ (l₁ l₂ : List RawProfile) (db : DB),
      processProfiles db (l₁ ++ l₂) =
        if (processProfiles db l₁).2 then processProfiles db l₁
        else processProfiles (processProfiles db l₁).1 l₂ := by
  intro l₁
  induction l₁ with
  | nil => intro l₂ db; simp [processProfiles_nil]
  | cons p rest ih =>
    intro l₂ db
    cases hp : processOne db p with
    | none =>
      rw [List.cons_append, processProfiles_cons_none hp, processProfiles_cons_none hp]
      simp
    | some db1 =>
      rw [List.cons_append, processProfiles_cons_some hp, processProfiles_cons_some hp]
      exact ih l₂ db1

lemma runPipeline_nil (db : DB) : runPipeline db [] = db := rfl

lemma runPipeline_cons (db : DB) (f : RawFile) (files : List RawFile) :
    runPipeline db (f :: files) = runPipeline (process_file db f) files := rfl

lemma process_file_profiles_mono {db : DB} {f : RawFile} {pr : ProfileRow}
    (h : pr ∈ db.profiles) : pr ∈ (process_file db f).profiles := by
  unfold process_file
  split
  · exact h
  · exact profiles_mono f.profiles db pr h

lemma process_file_idBound {db : DB} {f : RawFile} (h : idBound db) :
    idBound (process_file db f) := by
  unfold process_file
  split
  · exact h
  · exact idBound_pp f.profiles db h

lemma process_file_pressureOK {db : DB} {f : RawFile} (h : pressureOK db) :
    pressureOK (process_file db f) := by
  unfold process_file
  split
  · exact h
  · exact pressureOK_pp f.profiles db h

lemma process_file_uniqueKeys {db : DB} {f : RawFile} (h : uniqueKeys db) :
    uniqueKeys (process_file db f) := by
  unfold process_file
  split
  · exact h
  · exact uniqueKeys_pp f.profiles db h

lemma process_file_exists_mono {db : DB} {f : RawFile} {a b : ℤ}
    (h : profile_exists db a b = true) : profile_exists (process_file db f) a b = true := by
  simp only [profile_exists, List.any_eq_true] at h ⊢
  rcases h with ⟨r, hr, hm⟩
  exact ⟨r, process_file_profiles_mono hr, hm⟩

lemma runPipeline_profiles_mono :
    ∀ (files : List RawFile) (db : DB) (pr : ProfileRow),
      pr ∈ db.profiles → pr ∈ (runPipeline db files).profiles := by
  intro files
  induction files with
  | nil => intro db pr h; rwa [runPipeline_nil]
  | cons f rest ih =>
    intro db pr h
    rw [runPipeline_cons]
    exact ih _ pr (process_file_profiles_mono h)

lemma runPipeline_exists_mono :
    ∀ (files : List RawFile) (db : DB) (a b : ℤ),
      profile_exists db a b = true → profile_exists (runPipeline db files) a b = true := by
  intro files db a b h
  simp only [profile_exists, List.any_eq_true] at h ⊢
  rcases h with ⟨r, hr, hm⟩
  exact ⟨r, runPipeline_profiles_mono files db r hr, hm⟩

lemma runPipeline_idBound :
    ∀ (files : List RawFile) (db : DB), idBound db → idBound (runPipeline db files) := by
  intro files
  induction files with
  | nil => intro db h; rwa [runPipeline_nil]
  | cons f rest ih =>
    intro db h
    rw [runPipeline_cons]
    exact ih _ (process_file_idBound h)

lemma settledUpTo_mono {db db' : DB}
    (hmono : ∀ a b, profile_exists db a b = true → profile_exists db' a b = true) :
    ∀ l : List RawProfile, settledUpTo db l → settledUpTo db' l := by
  intro l
  induction l with
  | nil => intro h; trivial
  | cons p rest ih =>
    intro h
    rcases h with ⟨hm, h⟩
    refine ⟨hm, ?_⟩
    rcases h with h | ⟨hor, hrest⟩
    · exact Or.inl h
    · refine Or.inr ⟨?_, ih hrest⟩
      rcases hor with h1 | h1
      · exact Or.inl (hmono _ _ h1)
      · exact Or.inr h1

lemma processProfiles_noop :
    ∀ (l : List RawProfile) (db : DB), settledUpTo db l → (processProfiles db l).1 = db := by
  intro l
  induction l with
  | nil => intro db _; rw [processProfiles_nil]
  | cons p rest ih =>
    intro db h
    rcases h with ⟨hm, h⟩
    by_cases hid : p.identFails
    · rw [processProfiles_cons_none (by rw [processOne_eq]; simp [hid])]
    · rcases h with h | ⟨hor, hrest⟩
      · exact absurd h (by simp [hid])
      · have hone : processOne db p = some db := by
          rw [processOne_eq]
          by_cases hex : profile_exists db p.platform_number p.cycle_number
          · simp [hid, hex]
          · have hins : p.insertFails = true := by
              rcases hor with h1 | h1
              · exact absurd h1 hex
              · exact h1
            simp [hid, hex, hm, hins]
        rw [processProfiles_cons_some hone]
        exact ih db hrest

lemma processProfiles_establish :
    ∀ (l : List RawProfile) (db : DB), (∀ p ∈ l, p.metaFails = false) →
      settledUpTo (processProfiles db l).1 l := by
  intro l
  induction l with
  | nil => intro db _; trivial
  | cons p rest ih =>
    intro db hm
    have hmp : p.metaFails = false := hm p (List.mem_cons_self p rest)
    cases hp : processOne db p with
    | none =>
      rw [processProfiles_cons_none hp]
      have hid : p.identFails = true := by
        rcases processOne_none_cases hp with h | h
        · exact h
        · rw [hmp] at h
          cases h
      exact ⟨hmp, Or.inl hid⟩
    | some db1 =>
      rw [processProfiles_cons_some hp]
      have hrest : settledUpTo (processProfiles db1 rest).1 rest :=
        ih db1 (fun q hq => hm q (List.mem_cons_of_mem p hq))
      refine ⟨hmp, Or.inr ⟨?_, hrest⟩⟩
      rcases processOne_some_cases hp with ⟨hex, h1⟩ | ⟨_, hins, h1⟩ | ⟨_, _, _, h1⟩ | ⟨_, _, _, h1⟩
      · subst h1
        exact Or.inl (exists_mono rest hex)
      · exact Or.inr hins
      · subst h1
        exact Or.inl (exists_mono rest (exists_insertedDB db p))
      · subst h1
        exact Or.inl (exists_mono rest (exists_afterMeas db p))

lemma process_file_noop {db : DB} {f : RawFile}
    (h : f.openFails = true ∨ settledUpTo db f.profiles) : process_file db f = db := by
  unfold process_file
  rcases h with h | h
  · simp [h]
  · split
    · rfl
    · exact processProfiles_noop f.profiles db h

lemma runPipeline_noop :
    ∀ (files : List RawFile) (db : DB), allSettled db files → runPipeline db files = db := by
  intro files
  induction files with
  | nil => intro db _; rw [runPipeline_nil]
  | cons f rest ih =>
    intro db h
    rw [runPipeline_cons, process_file_noop (h f (List.mem_cons_self f rest))]
    exact ih db (fun g hg => h g (List.mem_cons_of_mem f hg))

lemma runPipeline_establish :
    ∀ (files : List RawFile) (db : DB),
      (∀ f ∈ files, ∀ p ∈ f.profiles, p.metaFails = false) →
      allSettled (runPipeline db files) files := by
  intro files
  induction files with
  | nil => intro db _ f hf; cases hf
  | cons f rest ih =>
    intro db hm g hg
    rw [runPipeline_cons]
    rcases List.mem_cons.mp hg with hg1 | hg1
    · subst hg1
      by_cases ho : g.openFails
      · exact Or.inl ho
      · refine Or.inr ?_
        have h1 : settledUpTo (process_file db g) g.profiles := by
          unfold process_file
          rw [if_neg (by simp [ho])]
          exact processProfiles_establish g.profiles db
            (hm g (List.mem_cons_self g rest))
        exact settledUpTo_mono
          (fun a b hab => runPipeline_exists_mono rest (process_file db g) a b hab)
          g.profiles h1
    · exact ih (process_file db f) (fun f' hf' => hm f' (List.mem_cons_of_mem f hf')) g hg1

lemma alongside_file {db : DB} {f : RawFile} (hb : idBound db) :
    ∀ m ∈ (process_file db f).measurements,
      m ∈ db.measurements ∨
      ∃ pr, pr ∈ (process_file db f).profiles ∧ pr ∉ db.profiles ∧
        m.profile_id = pr.profile_id := by
  unfold process_file
  split
  · intro m hm
    exact Or.inl hm
  · exact alongside_pp f.profiles db hb

lemma alongside_pipeline :
    ∀ (files : List RawFile) (db : DB), idBound db →
      ∀ m ∈ (runPipeline db files).measurements,
        m ∈ db.measurements ∨
        ∃ pr, pr ∈ (runPipeline db files).profiles ∧ pr ∉ db.profiles ∧
          m.profile_id = pr.profile_id := by
  intro files
  induction files with
  | nil => intro db _ m hm; rw [runPipeline_nil] at hm ⊢; exact Or.inl hm
  | cons f rest ih =>
    intro db hb m hm
    rw [runPipeline_cons] at hm ⊢
    rcases ih (process_file db f) (process_file_idBound hb) m hm with h1 | ⟨pr, hpr, hnpr, hid⟩
    · rcases alongside_file hb m h1 with h2 | ⟨pr, hpr, hnpr, hid⟩
      · exact Or.inl h2
      · exact Or.inr ⟨pr, runPipeline_profiles_mono rest _ pr hpr, hnpr, hid⟩
    · exact Or.inr ⟨pr, hpr, fun hc => hnpr (process_file_profiles_mono hc), hid⟩

lemma runPipeline_pressureOK :
    ∀ (files : List RawFile) (db : DB), pressureOK db → pressureOK (runPipeline db files) := by
  intro files
  induction files with
  | nil => intro db h; rwa [runPipeline_nil]
  | cons f rest ih =>
    intro db h
    rw [runPipeline_cons]
    exact ih _ (process_file_pressureOK h)

lemma runPipeline_uniqueKeys :
    ∀ (files : List RawFile) (db : DB), uniqueKeys db → uniqueKeys (runPipeline db files) := by
  intro files
  induction files with
  | nil => intro db h; rwa [runPipeline_nil]
  | cons f rest ih =>
    intro db h
    rw [runPipeline_cons]
    exact ih _ (process_file_uniqueKeys h)

lemma afterMeas_eq_of_isEmpty {db : DB} {p : RawProfile}
    (h : (extract_measurements p db.nextId).isEmpty) :
    afterMeas db p = insertedDB db p := by
  simp [afterMeas, h]

lemma afterMeas_eq_of_bulkFails {db : DB} {p : RawProfile} (hb : p.bulkFails = true) :
    afterMeas db p = insertedDB db p := by
  by_cases h : (extract_measurements p db.nextId).isEmpty <;>
    simp [afterMeas, bulk_insert_measurements, h, hb]

lemma afterMeas_meas_of_success {db : DB} {p : RawProfile}
    (h : ¬(extract_measurements p db.nextId).isEmpty = true) (hb : p.bulkFails = false) :
    (afterMeas db p).measurements = db.measurements ++ extract_measurements p db.nextId := by
  simp [afterMeas, bulk_insert_measurements, h, hb, insertedDB]

lemma roundHalfEven_intCast (k : ℤ) : roundHalfEven (k : ℚ) = k := by
  unfold roundHalfEven
  norm_num [Int.floor_intCast]

lemma juldToTimestamp_zero : juldToTimestamp 0 = 0 := by
  have h : (0 : ℚ) * (microsPerDay : ℚ) = ((0 : ℤ) : ℚ) := by norm_num
  unfold juldToTimestamp
  rw [h, roundHalfEven_intCast]

lemma juldToTimestamp_three_halves : juldToTimestamp (3 / 2) = 129600000000 := by
  have h : (3 / 2 : ℚ) * (microsPerDay : ℚ) = ((129600000000 : ℤ) : ℚ) := by
    norm_num [microsPerDay]
  unfold juldToTimestamp
  rw [h, roundHalfEven_intCast]

end Helpers

/-- C1: for every per-depth sample, if the sample's QC flag is not one of
the literal codes `'1'`/`'2'` (including a missing flag), the filtered
value at that position is the missing marker regardless of the raw reading;
if the flag is good the original value is kept; and the filtered sequence
has the same length as the input. -/
theorem qc_filter_spec (vals : List (Option ℚ)) (flags : List (Option Char))
    (hlen : flags.length = vals.length) :
    (qcFilter vals flags).length = vals.length ∧
    ∀ (i : ℕ) (hv : i < vals.length) (hf : i < flags.length)
      (hq : i < (qcFilter vals flags).length),
      (goodFlag (flags.get ⟨i, hf⟩) = true →
        (qcFilter vals flags).get ⟨i, hq⟩ = vals.get ⟨i, hv⟩) ∧
      (goodFlag (flags.get ⟨i, hf⟩) = false →
        (qcFilter vals flags).get ⟨i, hq⟩ = none) := by
  constructor
  · simp [qcFilter, hlen]
  · intro i hv hf hq
    have hzip : (qcFilter vals flags).get ⟨i, hq⟩ =
        if goodFlag (flags.get ⟨i, hf⟩) then vals.get ⟨i, hv⟩ else none := by
      simp only [qcFilter, List.get_eq_getElem]
      rw [List.getElem_zipWith]
    constructor
    · intro h
      rw [hzip, if_pos h]
    · intro h
      rw [hzip, if_neg (by rw [h]; simp)]

/-- C1 witness: on a concrete two-sample input, the filter keeps the
flag-`'1'` sample, blanks the flag-`'4'` sample, and preserves length. -/
theorem qc_filter_spec_witness :
    (qcFilter [some (5 : ℚ), some 6] [some '1', some '4']).length = 2 ∧
    (qcFilter [some (5 : ℚ), some 6] [some '1', some '4']).get ⟨0, by decide⟩ = some 5 ∧
    (qcFilter [some (5 : ℚ), some 6] [some '1', some '4']).get ⟨1, by decide⟩ = none := by
  have h := qc_filter_spec [some (5 : ℚ), some 6] [some '1', some '4'] rfl
  exact ⟨h.1, (h.2 0 (by decide) (by decide) (by decide)).1 (by decide),
    (h.2 1 (by decide) (by decide) (by decide)).2 (by decide)⟩

/-- C2: every row handed to the bulk-insert path has present pressure, so
the persisted store keeps the pressure-required invariant; and a candidate
depth sample whose pressure is missing after QC filtering is dropped even
when its temperature or salinity is valid. -/
theorem pressure_required_invariant (db : DB) (files : List RawFile)
    (h0 : pressureOK db) :
    pressureOK (runPipeline db files) ∧
    (∀ (p : RawProfile) (pid : ℕ) (r : MeasRow),
      r ∈ extract_measurements p pid → r.pressure_dbar.isSome = true) ∧
    ∀ (pid : ℕ) (ps ts ss : List (Option ℚ)) (t s : Option ℚ),
      buildRows pid (none :: ps) (t :: ts) (s :: ss) = buildRows pid ps ts ss := by
  refine ⟨runPipeline_pressureOK files db h0, fun p pid r hr => extract_pressure hr, ?_⟩
  intro pid ps ts ss t s
  simp [buildRows]

/-- C2 witness: the pipeline run over the sample file satisfies the
pressure invariant starting from the empty store. -/
theorem pressure_required_invariant_witness :
    pressureOK (runPipeline DB.empty [sampleFile]) :=
  (pressure_required_invariant DB.empty [sampleFile]
    (by intro m hm; simp [DB.empty] at hm)).1

/-- C3 counterexample: two runs over the same file set do not give the same
profile-row count.  `fileA` aborts at a metadata-read failure before
reaching `tailProfile`; `fileB` ingests the aborting profile's key; in the
second run the duplicate guard skips the aborting profile, so the loop
reaches and inserts `tailProfile`. -/
theorem pipeline_not_idempotent :
    (runPipeline DB.empty [fileA, fileB]).profiles.length = 1 ∧
    (runPipeline (runPipeline DB.empty [fileA, fileB]) [fileA, fileB]).profiles.length = 2 := by
  decide

/-- C3 amended: provided no profile's metadata read fails (no file-level
abort can occur mid-file), running the pipeline twice over an identical
file set leaves the store of the first run exactly unchanged — in
particular the same row counts in both tables; and measurement rows are
only ever inserted alongside a newly-inserted profile row carrying their
profile id. -/
theorem pipeline_idempotent_of_no_meta_failures (db : DB) (files : List RawFile)
    (hmeta : ∀ f ∈ files, ∀ p ∈ f.profiles, p.metaFails = false)
    (hids : idBound db) :
    runPipeline (runPipeline db files) files = runPipeline db files ∧
    ∀ m ∈ (runPipeline db files).measurements,
      m ∈ db.measurements ∨
      ∃ pr, pr ∈ (runPipeline db files).profiles ∧ pr ∉ db.profiles ∧
        m.profile_id = pr.profile_id := by
  refine ⟨?_, alongside_pipeline files db hids⟩
  exact runPipeline_noop files _ (runPipeline_establish files db hmeta)

/-- C3 witness: a second run over the sample file changes nothing. -/
theorem pipeline_idempotent_witness :
    runPipeline (runPipeline DB.empty [sampleFile]) [sampleFile] =
      runPipeline DB.empty [sampleFile] :=
  (pipeline_idempotent_of_no_meta_failures DB.empty [sampleFile] (by decide)
    (by intro pr h; simp [DB.empty] at h)).1

/-- C4: the existence check before each metadata insert preserves
uniqueness of (platform_number, cycle_number) across the profile table, for
every run from any store satisfying it. -/
theorem profile_uniqueness (db : DB) (files : List RawFile) (h : uniqueKeys db) :
    uniqueKeys (runPipeline db files) :=
  runPipeline_uniqueKeys files db h

/-- C4 witness: uniqueness holds after running the pipeline over files with
overlapping keys, starting from the empty store. -/
theorem profile_uniqueness_witness :
    uniqueKeys (runPipeline DB.empty [fileA, fileB, fileB]) :=
  profile_uniqueness DB.empty [fileA, fileB, fileB]
    (by unfold uniqueKeys DB.empty; exact List.Pairwise.nil)

/-- C5: when the duplicate guard reports the (platform, cycle) pair of a
profile as already existing, the pipeline performs no further work for that
profile — the store evolves exactly as if the profile were absent from the
file — and continues with the next profile index. -/
theorem duplicate_skip (db : DB) (p : RawProfile) (rest : List RawProfile)
    (hid : p.identFails = false)
    (hex : profile_exists db p.platform_number p.cycle_number = true) :
    processProfiles db (p :: rest) = processProfiles db rest :=
  processProfiles_cons_some (by rw [processOne_eq]; simp [hid, hex])

/-- C5 witness: a profile whose key is already stored is skipped and the
loop continues with the next profile. -/
theorem duplicate_skip_witness :
    processProfiles ⟨[⟨1, 1, 1, 0, 0, 0⟩], [], 2⟩ [retryProfile, tailProfile] =
      processProfiles ⟨[⟨1, 1, 1, 0, 0, 0⟩], [], 2⟩ [tailProfile] :=
  duplicate_skip ⟨[⟨1, 1, 1, 0, 0, 0⟩], [], 2⟩ retryProfile [tailProfile] rfl (by decide)

/-- C6: after a successful profile insert, the measurement rows persisted
for that profile's id are all of the surviving extracted rows when the
batched insert commits and none of them when it fails (never a partial
subset), while the already-committed profile row remains and the loop
continues over the remaining profiles. -/
theorem measurement_batch_atomicity (db : DB) (p : RawProfile) (rest : List RawProfile)
    (hid : p.identFails = false)
    (hex : profile_exists db p.platform_number p.cycle_number = false)
    (hmeta : p.metaFails = false) (hins : p.insertFails = false)
    (hnz : db.nextId ≠ 0)
    (hfresh : measFor db db.nextId = []) :
    profileRowOf db p ∈ (processProfiles db (p :: rest)).1.profiles ∧
    measFor (processProfiles db (p :: rest)).1 db.nextId =
      if p.bulkFails then [] else extract_measurements p db.nextId := by
  have hone : processOne db p = some (afterMeas db p) := by
    rw [processOne_eq]
    simp [hid, hex, hmeta, hins, hnz]
  rw [processProfiles_cons_some hone]
  constructor
  · apply profiles_mono rest
    rw [afterMeas_profiles]
    exact List.mem_append_right _ (List.mem_singleton.mpr rfl)
  · rw [measFor_preserved rest (afterMeas db p) db.nextId (by rw [afterMeas_nextId]; omega)]
    by_cases hempty : (extract_measurements p db.nextId).isEmpty
    · have hrows : extract_measurements p db.nextId = [] := by simpa using hempty
      rw [afterMeas_eq_of_isEmpty hempty]
      have h2 : measFor (insertedDB db p) db.nextId = measFor db db.nextId := rfl
      rw [h2, hfresh, hrows]
      simp
    · by_cases hb : p.bulkFails
      · rw [afterMeas_eq_of_bulkFails hb]
        have h2 : measFor (insertedDB db p) db.nextId = measFor db db.nextId := rfl
        rw [h2, hfresh, if_pos hb]
      · unfold measFor
        rw [afterMeas_meas_of_success hempty (by simpa using hb), List.filter_append]
        have h2 : db.measurements.filter (fun m => m.profile_id == db.nextId) = [] := hfresh
        have h3 : (extract_measurements p db.nextId).filter
            (fun m => m.profile_id == db.nextId) = extract_measurements p db.nextId := by
          rw [List.filter_eq_self]
          intro r hr
          simp [extract_pid hr]
        rw [h2, h3, List.nil_append, if_neg (by simp [hb])]

/-- C6 witness: ingesting the sample profile from the empty store persists
its profile row and exactly its surviving measurement batch. -/
theorem measurement_batch_atomicity_witness :
    profileRowOf DB.empty sampleProfile ∈
      (processProfiles DB.empty [sampleProfile]).1.profiles ∧
    measFor (processProfiles DB.empty [sampleProfile]).1 DB.empty.nextId =
      if sampleProfile.bulkFails then []
      else extract_measurements sampleProfile DB.empty.nextId :=
  measurement_batch_atomicity DB.empty sampleProfile [] rfl rfl rfl rfl
    (by decide) rfl

/-- C7: the converter maps the day count `0` to exactly
1950-01-01T00:00:00 and `3/2` to exactly 1950-01-02T12:00:00, and in
general maps a day count whose microsecond total is exact to precisely the
epoch plus that many days. -/
theorem time_conversion :
    civilOfMicros (juldToTimestamp 0) = (1950, 1, 1, 0, 0, 0) ∧
    civilOfMicros (juldToTimestamp (3 / 2)) = (1950, 1, 2, 12, 0, 0) ∧
    ∀ (d : ℚ) (k : ℤ), d * (microsPerDay : ℚ) = k → juldToTimestamp d = k := by
  refine ⟨?_, ?_, ?_⟩
  · rw [juldToTimestamp_zero]
    decide
  · rw [juldToTimestamp_three_halves]
    decide
  · intro d k h
    unfold juldToTimestamp
    rw [h]
    exact roundHalfEven_intCast k

/-- C7 witness: a two-day count converts to exactly two days of
microseconds past the epoch. -/
theorem time_conversion_witness : juldToTimestamp 2 = 172800000000 :=
  time_conversion.2.2 2 172800000000 (by norm_num [microsPerDay])

/-- C8: a file that fails to open contributes nothing to the store and the
pipeline still processes all files before and after it; and processing
always continues past each file regardless of its outcome. -/
theorem per_file_failure_isolation (db : DB) (fs₁ : List RawFile) (f : RawFile)
    (fs₂ : List RawFile) (h : f.openFails = true) :
    runPipeline db (fs₁ ++ f :: fs₂) = runPipeline db (fs₁ ++ fs₂) ∧
    ∀ (g : RawFile) (rest : List RawFile) (db' : DB),
      runPipeline db' (g :: rest) = runPipeline (process_file db' g) rest := by
  constructor
  · unfold runPipeline
    rw [List.foldl_append, List.foldl_append]
    simp only [List.foldl_cons]
    rw [process_file_noop (Or.inl h)]
  · intro g rest db'
    rfl

/-- C8 witness: a failing file in the middle of the set is invisible to the
final store, and the driver folds file by file. -/
theorem per_file_failure_isolation_witness :
    runPipeline DB.empty ([sampleFile] ++ badFile :: [fileB]) =
      runPipeline DB.empty ([sampleFile] ++ [fileB]) ∧
    runPipeline DB.empty (sampleFile :: [fileB]) =
      runPipeline (process_file DB.empty sampleFile) [fileB] := by
  have h := per_file_failure_isolation DB.empty [sampleFile] badFile [fileB] rfl
  exact ⟨h.1, h.2 sampleFile [fileB] DB.empty⟩

/-- C9: an exception while reading a profile's identifiers, or while
reading/converting its metadata (non-finite Julian day, latitude,
longitude) when the duplicate guard has not fired, aborts the entire file:
the loop stops with the store exactly as committed so far, and the
remaining profile indices of the file are never examined. -/
theorem metadata_failure_aborts_file (db db₁ : DB) (ps₁ : List RawProfile)
    (p : RawProfile) (ps₂ : List RawProfile)
    (h1 : processProfiles db ps₁ = (db₁, false))
    (habort : p.identFails = true ∨
      (p.metaFails = true ∧
        profile_exists db₁ p.platform_number p.cycle_number = false)) :
    processProfiles db (ps₁ ++ p :: ps₂) = (db₁, true) := by
  rw [processProfiles_append, h1]
  simp only [Bool.false_eq_true, if_false]
  have hone : processOne db₁ p = none := by
    rw [processOne_eq]
    rcases habort with h | ⟨hm, hex⟩
    · simp [h]
    · by_cases hid : p.identFails
      · simp [hid]
      · simp [hid, hex, hm]
  rw [processProfiles_cons_none hone]

/-- C9 witness: after one committed profile, a metadata failure aborts the
file keeping that committed row and never reaching the third profile. -/
theorem metadata_failure_aborts_file_witness :
    processProfiles DB.empty ([retryProfile] ++ abortProfile2 :: [tailProfile]) =
      (insertedDB DB.empty retryProfile, true) := by
  have hone : processOne DB.empty retryProfile = some (insertedDB DB.empty retryProfile) := by
    rw [processOne_eq]
    rw [@afterMeas_eq_of_isEmpty DB.empty retryProfile rfl]
    rfl
  have h1 : processProfiles DB.empty [retryProfile] =
      (insertedDB DB.empty retryProfile, false) := by
    rw [processProfiles_cons_some hone, processProfiles_nil]
  exact metadata_failure_aborts_file DB.empty (insertedDB DB.empty retryProfile)
    [retryProfile] abortProfile2 [tailProfile] h1 (Or.inr ⟨rfl, by decide⟩)

/-- C10: when the profile insert succeeds but the generated id is `0`, the
falsy-id check skips measurement extraction and insertion exactly as on a
failed insert, even though the profile row is committed: the loop continues
from the store holding the new row, that row persists, and no measurement
row with its id is ever added. -/
theorem falsy_profile_id_skips_measurements (db : DB) (p : RawProfile)
    (rest : List RawProfile)
    (hid : p.identFails = false)
    (hex : profile_exists db p.platform_number p.cycle_number = false)
    (hmeta : p.metaFails = false) (hins : p.insertFails = false)
    (hzero : db.nextId = 0)
    (hfresh : measFor db 0 = []) :
    processProfiles db (p :: rest) = processProfiles (insertedDB db p) rest ∧
    profileRowOf db p ∈ (processProfiles db (p :: rest)).1.profiles ∧
    measFor (processProfiles db (p :: rest)).1 0 = [] := by
  have hone : processOne db p = some (insertedDB db p) := by
    rw [processOne_eq]
    simp [hid, hex, hmeta, hins, hzero]
  refine ⟨processProfiles_cons_some hone, ?_, ?_⟩
  · rw [processProfiles_cons_some hone]
    apply profiles_mono rest
    rw [insertedDB_profiles]
    exact List.mem_append_right _ (List.mem_singleton.mpr rfl)
  · rw [processProfiles_cons_some hone]
    have h2 : measFor (insertedDB db p) 0 = measFor db 0 := rfl
    rw [measFor_preserved rest (insertedDB db p) 0 (by rw [insertedDB_nextId]; omega),
      h2, hfresh]

/-- C10 witness: with the key counter at 0, the sample profile's row is
committed but none of its extractable measurements are persisted. -/
theorem falsy_profile_id_witness :
    processProfiles ⟨[], [], 0⟩ [sampleProfile] =
      processProfiles (insertedDB ⟨[], [], 0⟩ sampleProfile) [] ∧
    profileRowOf ⟨[], [], 0⟩ sampleProfile ∈
      (processProfiles ⟨[], [], 0⟩ [sampleProfile]).1.profiles ∧
    measFor (processProfiles ⟨[], [], 0⟩ [sampleProfile]).1 0 = [] :=
  falsy_profile_id_skips_measurements ⟨[], [], 0⟩ sampleProfile [] rfl rfl rfl rfl
    rfl rfl

end Calypso
